import Mathlib

/-!
# A verification model of the wago ledger engine

This file gives a shallow embedding, in Lean 4, of the core ledger engine of
the `wago` personal crypto-finance tracker, and proves properties of it.

The embedding covers:
* the data model (`internal/model/models.go`): wallets, categories, contacts,
  transactions, balances, the price table;
* the storage layer (`internal/storage`, the single-file `wago.json` variant):
  `AddTransaction`, `DeleteTransaction`, `updateBalance`, `DeleteCategory`,
  `SetPrice`;
* the display-side aggregation (`cmd/wago/dashboard.go`):
  `groupTransactionsByMonth`, `getSortedMonthKeys`, and the edge-merging loop
  of `createFlowCanvas`.

Modelling conventions:
* Go maps (`map[string]*T`) become association lists `List (String × T)` with
  first-match lookup; insertion replaces the entry if the key is present and
  appends otherwise; deletion removes the entry.  In-place mutation through a
  pointer becomes explicit state passing, sequenced exactly as the Go code
  sequences its mutations.
* `float64` amounts and prices are modelled as exact rationals `ℚ`.
* Errors: the Go code returns `error` values built with `fmt.Errorf`; each
  distinct error site is modelled as a constructor of the inductive `Err`.
  A Go method that may both mutate the receiver and return an error becomes a
  function `Storage → ... → Storage × Option Err`, returning the state as it
  stands at the Go `return` statement.
* File persistence (`s.save()`) is outside the model: it does not change the
  in-memory state.
-/

set_option autoImplicit false

namespace Wago

/-- Model of `Balance` (models `model.Balance`): a token balance entry in a wallet. -/
structure Balance where
  coin : String
  amount : ℚ
deriving Repr, DecidableEq

/-- Model of `Wallet` (models `model.Wallet`).  `Balances` is a slice in Go, hence an
ordered list here. -/
structure Wallet where
  name : String := ""
  address : String := ""
  category : String := ""
  chain : String := ""
  type : String := ""
  note : String := ""
  balances : List Balance := []
deriving Repr, DecidableEq

/-- Model of `Category` (models `model.Category`). -/
structure Category where
  name : String := ""
  color : String := ""
deriving Repr, DecidableEq

/-- Model of `Contact` (models `model.Contact`). -/
structure Contact where
  name : String := ""
  address : String := ""
  chain : String := ""
  note : String := ""
deriving Repr, DecidableEq

/-- Model of `TxType` (models `model.TxType`, a string type with four constants). -/
inductive TxType where
  | deposit
  | withdraw
  | transfer
  | swap
deriving Repr, DecidableEq

/-- The string value of a `model.TxType` constant. -/
def TxType.str : TxType → String
  | .deposit => "deposit"
  | .withdraw => "withdraw"
  | .transfer => "transfer"
  | .swap => "swap"

/-- A calendar date, standing in for the `time.Time` stored in `Tx.Date`; the
code under study only ever reads year, month and day (via `Year()`, `Month()`,
`Day()`, `Format` and chronological comparison). -/
structure Date where
  year : Nat
  month : Nat
  day : Nat
deriving Repr, DecidableEq

/-- Chronological strict order on dates (models `time.Time.Before` for dates
at day granularity). -/
def Date.before (a b : Date) : Bool :=
  a.year < b.year ||
    (a.year = b.year && (a.month < b.month ||
      (a.month = b.month && a.day < b.day)))

/-- Model of `Tx` (models `model.Tx`). -/
structure Tx where
  id : String := ""
  type : TxType := .deposit
  fromWallet : String := ""
  toWallet : String := ""
  fromAddress : String := ""
  toAddress : String := ""
  coin : String := ""
  amount : ℚ := 0
  fee : ℚ := 0
  feeCoin : String := ""
  swapWallet : String := ""
  sellCoin : String := ""
  sellAmount : ℚ := 0
  buyCoin : String := ""
  buyAmount : ℚ := 0
  date : Date := ⟨0, 0, 0⟩
  note : String := ""
deriving Repr, DecidableEq

/-! ## Association-list maps

Go's `map[string]T` with unique keys, as an association list: `lookup` takes
the first match, `mapInsert` overwrites in place or appends, `mapErase`
removes, `mapModify` rewrites the value at a key (mutation through a map
entry's pointer). -/

/-- First-match lookup (Go `m[k]` with `exists` flag). -/
def lookup {α : Type} : List (String × α) → String → Option α
  | [], _ => none
  | (k, v) :: rest, key => if k = key then some v else lookup rest key

/-- Go `m[k] = v`: replace the entry if present, else append. -/
def mapInsert {α : Type} : List (String × α) → String → α → List (String × α)
  | [], key, v => [(key, v)]
  | (k, w) :: rest, key, v =>
    if k = key then (key, v) :: rest else (k, w) :: mapInsert rest key v

/-- Go `delete(m, k)`. -/
def mapErase {α : Type} : List (String × α) → String → List (String × α)
  | [], _ => []
  | (k, w) :: rest, key =>
    if k = key then mapErase rest key else (k, w) :: mapErase rest key

/-- Mutation of the value stored under a key (Go: writing through the pointer
`m[k]`); a no-op when the key is absent. -/
def mapModify {α : Type} : List (String × α) → String → (α → α) → List (String × α)
  | [], _, _ => []
  | (k, w) :: rest, key, f =>
    if k = key then (k, f w) :: rest else (k, w) :: mapModify rest key f

/-- Go `m[k] = true` on a `map[string]bool` used as a set. -/
def insertKey (l : List String) (k : String) : List String :=
  if k ∈ l then l else l ++ [k]

/-- Go `delete(m, k)` on a `map[string]bool` used as a set. -/
def eraseKey : List String → String → List String
  | [], _ => []
  | k :: rest, key => if k = key then eraseKey rest key else k :: eraseKey rest key

theorem lookup_mapInsert {α : Type} (m : List (String × α)) (k : String) (v : α)
    (k' : String) :
    lookup (mapInsert m k v) k' = if k = k' then some v else lookup m k' := by
  induction m with
  | nil => simp [mapInsert, lookup]
  | cons p rest ih =>
    obtain ⟨a, b⟩ := p
    simp only [mapInsert]
    by_cases h1 : a = k
    · subst h1
      simp only [if_pos rfl, lookup]
      by_cases h2 : a = k' <;> simp [h2]
    · rw [if_neg h1]
      simp only [lookup]
      by_cases h2 : a = k'
      · have h3 : ¬ k = k' := fun hh => h1 (h2.trans hh.symm)
        rw [if_pos h2, if_neg h3, if_pos h2]
      · rw [if_neg h2, ih, if_neg h2]

theorem lookup_mapErase {α : Type} (m : List (String × α)) (k : String)
    (k' : String) :
    lookup (mapErase m k) k' = if k = k' then none else lookup m k' := by
  induction m with
  | nil => simp [mapErase, lookup]
  | cons p rest ih =>
    obtain ⟨a, b⟩ := p
    simp only [mapErase]
    by_cases h1 : a = k
    · subst h1
      rw [if_pos rfl, ih]
      simp only [lookup]
      by_cases h2 : a = k' <;> simp [h2]
    · rw [if_neg h1]
      simp only [lookup]
      by_cases h2 : a = k'
      · have h3 : ¬ k = k' := fun hh => h1 (h2.trans hh.symm)
        rw [if_pos h2, if_neg h3, if_pos h2]
      · rw [if_neg h2, ih, if_neg h2]

theorem lookup_mapModify {α : Type} (m : List (String × α)) (k : String)
    (f : α → α) (k' : String) :
    lookup (mapModify m k f) k' =
      if k = k' then (lookup m k).map f else lookup m k' := by
  induction m with
  | nil => simp [mapModify, lookup]
  | cons p rest ih =>
    obtain ⟨a, b⟩ := p
    simp only [mapModify]
    by_cases h1 : a = k
    · subst h1
      simp only [if_pos rfl, lookup]
      by_cases h2 : a = k' <;> simp [h2]
    · rw [if_neg h1]
      simp only [lookup]
      by_cases h2 : a = k'
      · have h3 : ¬ k = k' := fun hh => h1 (h2.trans hh.symm)
        rw [if_pos h2, if_neg h3, if_pos h2]
      · rw [if_neg h2, ih]
        simp [lookup, h1, h2]

theorem length_mapModify {α : Type} (m : List (String × α)) (k : String)
    (f : α → α) : (mapModify m k f).length = m.length := by
  induction m with
  | nil => rfl
  | cons p rest ih =>
    obtain ⟨a, b⟩ := p
    by_cases h : a = k <;> simp [mapModify, h, ih]

/-! ## The storage layer (`internal/storage`, file `wago.json` variant)

`Storage` carries the in-memory `model.Data` plus the transaction-id index
`txIndex` that `AddTransaction` consults for deduplication. -/

/-- Errors returned by the storage layer; one constructor per `fmt.Errorf`
site relevant to the modelled operations.  The spec's names for them:
`duplicateKey` ↦ `DuplicateKey`, `walletNotFound`/`txNotFound`/
`categoryNotFound` ↦ `NotFound`, `invalidReference` ↦ `InvalidReference`. -/
inductive Err where
  | duplicateKey (id : String)
  | walletNotFound (name : String)
  | invalidReference
  | txNotFound (id : String)
  | categoryNotFound (name : String)
deriving Repr, DecidableEq

/-- The in-memory state of `storage.Storage` (its `data *model.Data` plus
`txIndex`; the file paths play no role in the in-memory semantics). -/
structure Storage where
  wallets : List (String × Wallet) := []
  categories : List (String × Category) := []
  contacts : List (String × Contact) := []
  transactions : List (String × Tx) := []
  prices : List (String × ℚ) := []
  txIndex : List String := []
deriving Repr, DecidableEq

namespace Storage

/-- Translation of `GetWallet` (without the error value: `lookup` into `data.Wallets`). -/
def getWallet (s : Storage) (name : String) : Option Wallet :=
  lookup s.wallets name

/-- Translation of `updateBalance` on the balance slice: find the first entry whose coin
matches exactly (case-sensitive) and add the delta; if none exists, append a
new entry initialized with the delta.  Never removes an entry. -/
def updateBalance : List Balance → String → ℚ → List Balance
  | [], coin, amount => [⟨coin, amount⟩]
  | b :: rest, coin, amount =>
    if b.coin = coin then { b with amount := b.amount + amount } :: rest
    else b :: updateBalance rest coin amount

/-- The call `s.updateBalance(wallet, coin, amount)` where `wallet` is the live map
entry for `name`: mutation through the pointer, as a state update. -/
def updBal (s : Storage) (name coin : String) (amount : ℚ) : Storage :=
  { s with
    wallets := mapModify s.wallets name (fun w =>
      { w with balances := updateBalance w.balances coin amount }) }

/-- The two unconditional lines at the end of a successful `AddTransaction`:
`s.data.Transactions[tx.ID] = tx` and `s.txIndex[tx.ID] = true`. -/
def commitTx (s : Storage) (tx : Tx) : Storage :=
  { s with transactions := mapInsert s.transactions tx.id tx,
           txIndex := insertKey s.txIndex tx.id }

/-- Translation of `AddTransaction` (`internal/storage`, `wago.json` variant): duplicate-id
check, then per-type wallet resolution and balance deltas, then commit of the
transaction record.  The returned state is the receiver's state at the Go
`return` statement. -/
def AddTransaction (s : Storage) (tx : Tx) : Storage × Option Err :=
  if tx.id ≠ "" ∧ tx.id ∈ s.txIndex then
    (s, some (.duplicateKey tx.id))
  else
    match tx.type with
    | .deposit =>
      match s.getWallet tx.toWallet with
      | none => (s, some (.walletNotFound tx.toWallet))
      | some _ => ((s.updBal tx.toWallet tx.coin tx.amount).commitTx tx, none)
    | .withdraw =>
      match s.getWallet tx.fromWallet with
      | none => (s, some (.walletNotFound tx.fromWallet))
      | some _ =>
        ((s.updBal tx.fromWallet tx.coin (-tx.amount)).commitTx tx, none)
    | .transfer =>
      -- `fromWallet ≠ nil` iff the name is nonempty and resolves;
      -- `fromErr ≠ nil` iff the name is nonempty and does not resolve.
      if (tx.fromWallet ≠ "" ∧ (s.getWallet tx.fromWallet).isNone) ∧
         (tx.toWallet ≠ "" ∧ (s.getWallet tx.toWallet).isNone) then
        (s, some .invalidReference)
      else
        let s₁ := if tx.fromWallet ≠ "" ∧ (s.getWallet tx.fromWallet).isSome then
            s.updBal tx.fromWallet tx.coin (-tx.amount) else s
        let s₂ := if tx.toWallet ≠ "" ∧ (s.getWallet tx.toWallet).isSome then
            s₁.updBal tx.toWallet tx.coin tx.amount else s₁
        (s₂.commitTx tx, none)
    | .swap =>
      match s.getWallet tx.swapWallet with
      | none => (s, some (.walletNotFound tx.swapWallet))
      | some _ =>
        (((s.updBal tx.swapWallet tx.sellCoin (-tx.sellAmount)).updBal
            tx.swapWallet tx.buyCoin tx.buyAmount).commitTx tx, none)

/-- The two unconditional lines at the end of `DeleteTransaction`:
`delete(s.data.Transactions, txID)` and `delete(s.txIndex, txID)`. -/
def removeTx (s : Storage) (txID : String) : Storage :=
  { s with transactions := mapErase s.transactions txID,
           txIndex := eraseKey s.txIndex txID }

/-- Translation of `DeleteTransaction`: look the record up by id, reverse its balance deltas
on every referenced wallet that still resolves (a failed `GetWallet` is
silently skipped), then remove the record and its index entry. -/
def DeleteTransaction (s : Storage) (txID : String) : Storage × Option Err :=
  match lookup s.transactions txID with
  | none => (s, some (.txNotFound txID))
  | some tx =>
    let s₁ :=
      match tx.type with
      | .deposit =>
        if (s.getWallet tx.toWallet).isSome then
          s.updBal tx.toWallet tx.coin (-tx.amount) else s
      | .withdraw =>
        if (s.getWallet tx.fromWallet).isSome then
          s.updBal tx.fromWallet tx.coin tx.amount else s
      | .transfer =>
        let sa := if (s.getWallet tx.fromWallet).isSome then
            s.updBal tx.fromWallet tx.coin tx.amount else s
        if (sa.getWallet tx.toWallet).isSome then
          sa.updBal tx.toWallet tx.coin (-tx.amount) else sa
      | .swap =>
        if (s.getWallet tx.swapWallet).isSome then
          (s.updBal tx.swapWallet tx.sellCoin tx.sellAmount).updBal
            tx.swapWallet tx.buyCoin (-tx.buyAmount)
        else s
    (s₁.removeTx txID, none)

/-- Translation of `SetPrice` (storage layer): `s.data.Prices[coin] = price`.  Note: the
storage layer itself does not change the key's case. -/
def SetPrice (s : Storage) (coin : String) (price : ℚ) : Storage :=
  { s with prices := mapInsert s.prices coin price }

/-- Translation of `DeleteCategory`: `NotFound` if absent; otherwise remove the category and
clear the `Category` field of every wallet that referenced it. -/
def DeleteCategory (s : Storage) (name : String) : Storage × Option Err :=
  match lookup s.categories name with
  | none => (s, some (.categoryNotFound name))
  | some _ =>
    ({ s with
        categories := mapErase s.categories name,
        wallets := s.wallets.map (fun kv =>
          if kv.2.category = name then (kv.1, { kv.2 with category := "" })
          else kv) }, none)

end Storage

/-- Go's `strings.ToLower`, character by character (the Go function maps each
rune through the Unicode lower-case table; `Char.toLower` is that map). -/
def toLowerStr (s : String) : String :=
  ⟨s.data.map Char.toLower⟩

/-- The `setPrice` operation as the spec describes it: the `price` command of
the command palette (`cmdPrice`, which lower-cases the coin symbol with
`strings.ToLower`) followed by the storage-layer `SetPrice`. -/
def setPrice (s : Storage) (coin : String) (price : ℚ) : Storage :=
  s.SetPrice (toLowerStr coin) price

/-! ## Balance observations -/

/-- The amount held in a balance slice for a coin: the amount of the first
entry whose coin matches exactly, `0` when no entry exists. -/
def balAmt : List Balance → String → ℚ
  | [], _ => 0
  | b :: rest, coin => if b.coin = coin then b.amount else balAmt rest coin

/-- A ledger state's balance of `coin` in the wallet named `n` (`0` when the
wallet does not exist). -/
def Storage.bal (s : Storage) (n coin : String) : ℚ :=
  match s.getWallet n with
  | some w => balAmt w.balances coin
  | none => 0

theorem balAmt_updateBalance (bs : List Balance) (c : String) (a : ℚ)
    (c' : String) :
    balAmt (Storage.updateBalance bs c a) c' =
      balAmt bs c' + (if c' = c then a else 0) := by
  induction bs with
  | nil =>
    simp only [Storage.updateBalance, balAmt, zero_add]
    by_cases h : c = c'
    · subst h
      simp
    · have h2 : ¬ c' = c := fun hh => h hh.symm
      simp [h, h2]
  | cons b rest ih =>
    by_cases h1 : b.coin = c
    · simp only [Storage.updateBalance, if_pos h1, balAmt]
      by_cases h2 : b.coin = c'
      · have h3 : c' = c := h2.symm.trans h1
        simp [h2, h3]
      · have h3 : ¬ c' = c := fun hh => h2 (h1.trans hh.symm)
        simp [h2, h3]
    · simp only [Storage.updateBalance, if_neg h1, balAmt]
      by_cases h2 : b.coin = c'
      · have h3 : ¬ c' = c := fun hh => h1 (h2.trans hh)
        simp [h2, h3]
      · simp [h2, ih]

theorem getWallet_updBal (s : Storage) (n c : String) (a : ℚ) (m : String) :
    (s.updBal n c a).getWallet m =
      if n = m then
        (s.getWallet n).map (fun w =>
          { w with balances := Storage.updateBalance w.balances c a })
      else s.getWallet m := by
  simp [Storage.updBal, Storage.getWallet, lookup_mapModify]

theorem isSome_getWallet_updBal (s : Storage) (n c : String) (a : ℚ)
    (m : String) :
    ((s.updBal n c a).getWallet m).isSome = (s.getWallet m).isSome := by
  rw [getWallet_updBal]
  by_cases h : n = m <;> simp [h]

theorem bal_updBal (s : Storage) (n c : String) (a : ℚ) (n' c' : String) :
    (s.updBal n c a).bal n' c' =
      s.bal n' c' +
        (if n' = n ∧ c' = c ∧ (s.getWallet n).isSome then a else 0) := by
  unfold Storage.bal
  rw [getWallet_updBal]
  by_cases h1 : n = n'
  · subst h1
    cases hw : s.getWallet n with
    | none => simp [hw]
    | some w =>
      simp [hw, balAmt_updateBalance]
  · have h3 : ¬ (n' = n) := fun hh => h1 hh.symm
    simp [h1, h3]

theorem bal_commitTx (s : Storage) (tx : Tx) (n c : String) :
    (s.commitTx tx).bal n c = s.bal n c := rfl

theorem getWallet_commitTx (s : Storage) (tx : Tx) (m : String) :
    (s.commitTx tx).getWallet m = s.getWallet m := rfl

theorem bal_removeTx (s : Storage) (txID : String) (n c : String) :
    (s.removeTx txID).bal n c = s.bal n c := rfl

theorem getWallet_removeTx (s : Storage) (txID : String) (m : String) :
    (s.removeTx txID).getWallet m = s.getWallet m := rfl

/-! ## Concrete ledger fixtures used by witnesses and counterexamples -/

/-- A wallet named `w` with no balance entries. -/
def w0 : Wallet := { name := "w" }

/-- A ledger with the single empty wallet `w`. -/
def sW : Storage := { wallets := [("w", w0)] }

/-- A transaction already stored under the empty-string id. -/
def txEmptyOld : Tx :=
  { id := "", type := .deposit, toWallet := "w", coin := "c", amount := 2,
    date := ⟨2025, 1, 1⟩ }

/-- A ledger whose transaction map already contains a transaction with the
empty-string id. -/
def sDup : Storage :=
  { wallets := [("w", w0)], transactions := [("", txEmptyOld)],
    txIndex := [""] }

/-- A second transaction also carrying the empty-string id. -/
def txEmptyNew : Tx :=
  { id := "", type := .deposit, toWallet := "w", coin := "c", amount := 1,
    date := ⟨2025, 1, 2⟩ }

/-- A stored deposit whose destination wallet no longer exists. -/
def txOrphan : Tx :=
  { id := "t9", type := .deposit, toWallet := "gone", coin := "c", amount := 4,
    date := ⟨2025, 1, 1⟩ }

/-- A ledger holding `txOrphan` but no wallet at all. -/
def sOrphan : Storage :=
  { transactions := [("t9", txOrphan)], txIndex := ["t9"] }

/-- A fresh transaction that reuses the id `t9` already present in
`sOrphan`. -/
def txDupId : Tx :=
  { id := "t9", type := .deposit, toWallet := "w", coin := "c", amount := 1 }

/-! ## C10 -/

/-- C10: whenever `AddTransaction` returns an error (duplicate id, missing
wallet for a deposit/withdraw/swap, or a transfer in which neither side
resolves), the in-memory ledger is completely unchanged: every failure is
detected before any balance mutation or transaction-map insertion. -/
theorem addTransaction_error_leaves_state_unchanged (s : Storage) (tx : Tx)
    (e : Err) (h : (s.AddTransaction tx).2 = some e) :
    (s.AddTransaction tx).1 = s := by
  unfold Storage.AddTransaction at h ⊢
  by_cases hdup : tx.id ≠ "" ∧ tx.id ∈ s.txIndex
  · simp [hdup]
  · rw [if_neg hdup] at h ⊢
    cases htype : tx.type with
    | deposit =>
      rw [htype] at h
      cases hw : s.getWallet tx.toWallet <;> simp [hw] at h ⊢
    | withdraw =>
      rw [htype] at h
      cases hw : s.getWallet tx.fromWallet <;> simp [hw] at h ⊢
    | transfer =>
      rw [htype] at h
      by_cases hbad : (tx.fromWallet ≠ "" ∧ (s.getWallet tx.fromWallet).isNone) ∧
          (tx.toWallet ≠ "" ∧ (s.getWallet tx.toWallet).isNone)
      · simp [hbad]
      · rw [if_neg hbad] at h
        simp at h
    | swap =>
      rw [htype] at h
      cases hw : s.getWallet tx.swapWallet <;> simp [hw] at h ⊢

/-- Witness for C10: adding a transaction whose id `t9` is already indexed
fails with `DuplicateKey` and leaves the ledger exactly as it was. -/
theorem addTransaction_error_leaves_state_unchanged_witness :
    (sOrphan.AddTransaction txDupId).2 = some (Err.duplicateKey "t9") ∧
    (sOrphan.AddTransaction txDupId).1 = sOrphan :=
  ⟨by decide,
   addTransaction_error_leaves_state_unchanged sOrphan txDupId
     (Err.duplicateKey "t9") (by decide)⟩

/-! ## C2 -/

/-- C2 (amended): for every ledger state whose transaction map contains a
transaction with a NONEMPTY identifier `tx.id` (with the id index in sync
with the map, as the storage layer maintains), re-adding any transaction
carrying that id fails with `DuplicateKey` and returns the ledger completely
unchanged — in particular the transaction count and every wallet balance. -/
theorem addTransaction_duplicate_nonempty_id_rejected (s : Storage) (tx : Tx)
    (hwf : ∀ i : String, i ∈ s.txIndex ↔ (lookup s.transactions i).isSome)
    (hdup : (lookup s.transactions tx.id).isSome)
    (hne : tx.id ≠ "") :
    s.AddTransaction tx = (s, some (.duplicateKey tx.id)) := by
  have hmem : tx.id ∈ s.txIndex := (hwf tx.id).mpr hdup
  unfold Storage.AddTransaction
  rw [if_pos ⟨hne, hmem⟩]

/-- Witness for C2: re-adding id `t9` over `sOrphan` is rejected. -/
theorem addTransaction_duplicate_nonempty_id_rejected_witness :
    sOrphan.AddTransaction txDupId = (sOrphan, some (.duplicateKey "t9")) :=
  addTransaction_duplicate_nonempty_id_rejected sOrphan txDupId
    (by
      intro i
      by_cases h : i = "t9"
      · simp [sOrphan, lookup, h]
      · simp [sOrphan, lookup, h, Ne.symm h])
    (by decide) (by decide)

/-- Counterexample for C2 as stated: with the EMPTY identifier the duplicate
check is skipped (`tx.ID != ""` guards it), so a second transaction with id
`""` is accepted even though the map already holds one, and it changes a
wallet balance. -/
theorem addTransaction_empty_id_not_rejected_cex :
    (lookup sDup.transactions "").isSome ∧
    (sDup.AddTransaction txEmptyNew).2 = none ∧
    (sDup.AddTransaction txEmptyNew).1.bal "w" "c" ≠ sDup.bal "w" "c" := by
  decide

/-! ## C6 -/

/-- C6: `setPrice` (the `price` command path: `cmdPrice` lower-cases the coin
symbol, then the storage layer upserts) stores the price under the lowercase
form of the coin symbol, overwrites any previous entry at that key, performs
no validation on the price's sign (any rational price is stored), and touches
nothing else in the ledger. -/
theorem setPrice_lowercases_and_upserts (s : Storage) (coin : String)
    (price : ℚ) :
    lookup (setPrice s coin price).prices (toLowerStr coin) = some price ∧
    (∀ k, k ≠ toLowerStr coin →
      lookup (setPrice s coin price).prices k = lookup s.prices k) ∧
    (setPrice s coin price).wallets = s.wallets ∧
    (setPrice s coin price).categories = s.categories ∧
    (setPrice s coin price).contacts = s.contacts ∧
    (setPrice s coin price).transactions = s.transactions := by
  refine ⟨?_, ?_, rfl, rfl, rfl, rfl⟩
  · simp [setPrice, Storage.SetPrice, lookup_mapInsert]
  · intro k hk
    have hk2 : ¬ (toLowerStr coin = k) := fun hh => hk hh.symm
    simp [setPrice, Storage.SetPrice, lookup_mapInsert, hk2]

/-- A ledger holding only the seeded `usdc` price. -/
def sP : Storage := { prices := [("usdc", 1)] }

/-- Witness for C6: setting the price of `BTC` to the (negative) value `-3`
stores it under the key `btc` and leaves the seeded `usdc` price alone. -/
theorem setPrice_lowercases_and_upserts_witness :
    lookup (setPrice sP "BTC" (-3)).prices "btc" = some (-3) ∧
    lookup (setPrice sP "BTC" (-3)).prices "usdc" =
      lookup sP.prices "usdc" := by
  have h := setPrice_lowercases_and_upserts sP "BTC" (-3)
  have e : toLowerStr "BTC" = "btc" := by decide
  exact ⟨e ▸ h.1, h.2.1 "usdc" (by decide)⟩

/-! ## C3 -/

/-- A transfer whose source is an empty name and whose destination name
matches no wallet. -/
def txTfBroken : Tx :=
  { id := "t1", type := .transfer, fromWallet := "", toWallet := "nope",
    coin := "c", amount := 5 }

/-- Counterexample for C3 as stated: in this transfer neither the source name
nor the destination name resolves to a wallet, yet `AddTransaction` succeeds
instead of failing with `InvalidReference`, because an empty name skips the
`GetWallet` call and therefore never contributes a resolution error. -/
theorem addTransaction_transfer_unresolved_accepted_cex :
    sW.getWallet txTfBroken.fromWallet = none ∧
    sW.getWallet txTfBroken.toWallet = none ∧
    (sW.AddTransaction txTfBroken).2 = none := by
  decide

/-- C3 (amended): a transfer fails with `InvalidReference` exactly when both
the source and the destination names are nonempty and neither resolves to a
wallet (an empty name never produces a resolution error); otherwise it is
accepted, subtracting `amount` of `coin` on the source wallet only when the
source name is nonempty and resolves, and adding it on the destination wallet
only when the destination name is nonempty and resolves — a side that is a
contact, raw address, or empty causes no balance change on any wallet. -/
theorem addTransaction_transfer_resolution (s : Storage) (tx : Tx)
    (htype : tx.type = .transfer)
    (hid : tx.id = "" ∨ tx.id ∉ s.txIndex) :
    ((tx.fromWallet ≠ "" ∧ (s.getWallet tx.fromWallet).isNone) ∧
     (tx.toWallet ≠ "" ∧ (s.getWallet tx.toWallet).isNone) →
       s.AddTransaction tx = (s, some .invalidReference)) ∧
    (¬((tx.fromWallet ≠ "" ∧ (s.getWallet tx.fromWallet).isNone) ∧
       (tx.toWallet ≠ "" ∧ (s.getWallet tx.toWallet).isNone)) →
       (s.AddTransaction tx).2 = none ∧
       ∀ n c, (s.AddTransaction tx).1.bal n c =
         s.bal n c
         + (if tx.fromWallet ≠ "" ∧ (s.getWallet tx.fromWallet).isSome ∧
              n = tx.fromWallet ∧ c = tx.coin then -tx.amount else 0)
         + (if tx.toWallet ≠ "" ∧ (s.getWallet tx.toWallet).isSome ∧
              n = tx.toWallet ∧ c = tx.coin then tx.amount else 0)) := by
  have hdup : ¬(tx.id ≠ "" ∧ tx.id ∈ s.txIndex) := by
    rcases hid with h | h
    · exact fun hc => hc.1 h
    · exact fun hc => h hc.2
  constructor
  · intro hbad
    unfold Storage.AddTransaction
    simp only [htype, if_neg hdup, if_pos hbad]
  · intro hbad
    by_cases hF : tx.fromWallet ≠ "" ∧ (s.getWallet tx.fromWallet).isSome <;>
      by_cases hT : tx.toWallet ≠ "" ∧ (s.getWallet tx.toWallet).isSome
    · have hres : s.AddTransaction tx =
          (((s.updBal tx.fromWallet tx.coin (-tx.amount)).updBal tx.toWallet
            tx.coin tx.amount).commitTx tx, none) := by
        unfold Storage.AddTransaction
        simp only [htype, if_neg hdup, if_neg hbad, if_pos hF, if_pos hT]
      refine ⟨by rw [hres], ?_⟩
      intro n c
      rw [hres]
      simp only [bal_commitTx, bal_updBal, isSome_getWallet_updBal]
      obtain ⟨hF1, hF2⟩ := hF
      obtain ⟨hT1, hT2⟩ := hT
      split_ifs <;> simp_all <;> ring
    · have hres : s.AddTransaction tx =
          ((s.updBal tx.fromWallet tx.coin (-tx.amount)).commitTx tx, none) := by
        unfold Storage.AddTransaction
        simp only [htype, if_neg hdup, if_neg hbad, if_pos hF, if_neg hT]
      refine ⟨by rw [hres], ?_⟩
      intro n c
      rw [hres]
      simp only [bal_commitTx, bal_updBal, isSome_getWallet_updBal]
      obtain ⟨hF1, hF2⟩ := hF
      split_ifs <;> simp_all <;> ring
    · have hres : s.AddTransaction tx =
          ((s.updBal tx.toWallet tx.coin tx.amount).commitTx tx, none) := by
        unfold Storage.AddTransaction
        simp only [htype, if_neg hdup, if_neg hbad, if_neg hF, if_pos hT]
      refine ⟨by rw [hres], ?_⟩
      intro n c
      rw [hres]
      simp only [bal_commitTx, bal_updBal, isSome_getWallet_updBal]
      obtain ⟨hT1, hT2⟩ := hT
      split_ifs <;> simp_all <;> ring
    · have hres : s.AddTransaction tx = (s.commitTx tx, none) := by
        unfold Storage.AddTransaction
        simp only [htype, if_neg hdup, if_neg hbad, if_neg hF, if_neg hT]
      refine ⟨by rw [hres], ?_⟩
      intro n c
      rw [hres]
      simp only [bal_commitTx]
      split_ifs <;> simp_all <;> ring

/-- A transfer whose source `alice` is not a wallet and whose destination `w`
is: only the destination may be credited. -/
def txTfAsym : Tx :=
  { id := "t1", type := .transfer, fromWallet := "alice", toWallet := "w",
    coin := "c", amount := 5 }

/-- Witness for C3 (amended): the one-sided transfer `txTfAsym` over `sW` is
accepted, and the balance equation holds at the destination wallet. -/
theorem addTransaction_transfer_resolution_witness :
    (sW.AddTransaction txTfAsym).2 = none ∧
    (sW.AddTransaction txTfAsym).1.bal "w" "c" =
      sW.bal "w" "c"
      + (if txTfAsym.fromWallet ≠ "" ∧
            (sW.getWallet txTfAsym.fromWallet).isSome ∧
            "w" = txTfAsym.fromWallet ∧ "c" = txTfAsym.coin
         then -txTfAsym.amount else 0)
      + (if txTfAsym.toWallet ≠ "" ∧
            (sW.getWallet txTfAsym.toWallet).isSome ∧
            "w" = txTfAsym.toWallet ∧ "c" = txTfAsym.coin
         then txTfAsym.amount else 0) :=
  ⟨((addTransaction_transfer_resolution sW txTfAsym rfl
      (Or.inr (by decide))).2 (by decide)).1,
   ((addTransaction_transfer_resolution sW txTfAsym rfl
      (Or.inr (by decide))).2 (by decide)).2 "w" "c"⟩

/-! ## C4 -/

/-- A wallet holding 100 of coin `x`. -/
def wX : Wallet := { name := "w", balances := [⟨"x", 100⟩] }

/-- A ledger with the single wallet `wX`. -/
def sX : Storage := { wallets := [("w", wX)] }

/-- A swap that sells 5 `x` and buys 3 `x` — the same coin on both sides,
which nothing in the code rejects. -/
def txSwapSame : Tx :=
  { id := "t1", type := .swap, swapWallet := "w", sellCoin := "x",
    sellAmount := 5, buyCoin := "x", buyAmount := 3 }

/-- Counterexample for C4 as stated: the same-coin swap `txSwapSame` is
accepted by `AddTransaction` (its sell and buy amounts are positive), yet the
wallet's balance for the sell coin ends at `100 - 5 + 3 = 98`, not decreased
by exactly the sell amount (which would be `95`). -/
theorem addTransaction_swap_same_coin_cex :
    (sX.AddTransaction txSwapSame).2 = none ∧
    (sX.AddTransaction txSwapSame).1.bal "w" "x" = 98 ∧
    (sX.AddTransaction txSwapSame).1.bal "w" "x" ≠
      sX.bal "w" "x" - txSwapSame.sellAmount := by
  have hb : (sX.AddTransaction txSwapSame).1.bal "w" "x" = 98 := by
    simp [sX, wX, txSwapSame, Storage.AddTransaction, Storage.updBal,
      Storage.commitTx, Storage.getWallet, Storage.bal, Storage.updateBalance,
      balAmt, lookup, mapModify, mapInsert, insertKey]
    norm_num
  have hbase : sX.bal "w" "x" = 100 := by
    simp [sX, wX, Storage.bal, Storage.getWallet, lookup, balAmt]
  refine ⟨by decide, hb, ?_⟩
  rw [hb, hbase]
  norm_num [txSwapSame]

/-- C4 (amended): for every swap with DISTINCT sell and buy coins, positive
amounts, a resolving wallet and a fresh id, insertion decreases the wallet's
sell-coin balance by exactly the sell amount and increases its buy-coin
balance by exactly the buy amount, regardless of the prior entries or values;
no other wallet's or coin's balance changes. -/
theorem addTransaction_swap_distinct_coins (s : Storage) (tx : Tx)
    (htype : tx.type = .swap)
    (hid : tx.id = "" ∨ tx.id ∉ s.txIndex)
    (hw : (s.getWallet tx.swapWallet).isSome)
    (hcoins : tx.sellCoin ≠ tx.buyCoin)
    (hsell : 0 < tx.sellAmount) (hbuy : 0 < tx.buyAmount) :
    (s.AddTransaction tx).2 = none ∧
    (s.AddTransaction tx).1.bal tx.swapWallet tx.sellCoin =
      s.bal tx.swapWallet tx.sellCoin - tx.sellAmount ∧
    (s.AddTransaction tx).1.bal tx.swapWallet tx.buyCoin =
      s.bal tx.swapWallet tx.buyCoin + tx.buyAmount ∧
    ∀ n c, n ≠ tx.swapWallet ∨ (c ≠ tx.sellCoin ∧ c ≠ tx.buyCoin) →
      (s.AddTransaction tx).1.bal n c = s.bal n c := by
  have hdup : ¬(tx.id ≠ "" ∧ tx.id ∈ s.txIndex) := by
    rcases hid with h | h
    · exact fun hc => hc.1 h
    · exact fun hc => h hc.2
  obtain ⟨w, hw'⟩ := Option.isSome_iff_exists.mp hw
  have hres : s.AddTransaction tx =
      (((s.updBal tx.swapWallet tx.sellCoin (-tx.sellAmount)).updBal
        tx.swapWallet tx.buyCoin tx.buyAmount).commitTx tx, none) := by
    unfold Storage.AddTransaction
    simp only [htype, if_neg hdup, hw']
  refine ⟨by rw [hres], ?_, ?_, ?_⟩
  · rw [hres]
    simp only [bal_commitTx, bal_updBal, isSome_getWallet_updBal]
    simp [hw', hcoins]
    ring
  · rw [hres]
    simp only [bal_commitTx, bal_updBal, isSome_getWallet_updBal]
    simp [hw', Ne.symm hcoins]
  · intro n c hnc
    rw [hres]
    simp only [bal_commitTx, bal_updBal, isSome_getWallet_updBal]
    rcases hnc with h | ⟨h1, h2⟩
    · simp [h]
    · simp [h1, h2]

/-- A swap selling 5 `x` for 3 `y` in the wallet `w` of `sX`. -/
def txSwapXY : Tx :=
  { id := "t1", type := .swap, swapWallet := "w", sellCoin := "x",
    sellAmount := 5, buyCoin := "y", buyAmount := 3 }

/-- Witness for C4 (amended): the swap `txSwapXY` over `sX` is accepted,
moves `x` from 100 to 95, creates the `y` balance at 3, and leaves an
unrelated coin `z` untouched. -/
theorem addTransaction_swap_distinct_coins_witness :
    (sX.AddTransaction txSwapXY).2 = none ∧
    (sX.AddTransaction txSwapXY).1.bal "w" "x" = sX.bal "w" "x" - 5 ∧
    (sX.AddTransaction txSwapXY).1.bal "w" "y" = sX.bal "w" "y" + 3 ∧
    (sX.AddTransaction txSwapXY).1.bal "w" "z" = sX.bal "w" "z" :=
  ⟨(addTransaction_swap_distinct_coins sX txSwapXY rfl (Or.inr (by decide))
      (by decide) (by decide) (by decide) (by decide)).1,
   (addTransaction_swap_distinct_coins sX txSwapXY rfl (Or.inr (by decide))
      (by decide) (by decide) (by decide) (by decide)).2.1,
   (addTransaction_swap_distinct_coins sX txSwapXY rfl (Or.inr (by decide))
      (by decide) (by decide) (by decide) (by decide)).2.2.1,
   (addTransaction_swap_distinct_coins sX txSwapXY rfl (Or.inr (by decide))
      (by decide) (by decide) (by decide) (by decide)).2.2.2 "w" "z"
      (Or.inr (by decide))⟩

/-! ## C7 -/

theorem lookup_map_entries {α : Type} (m : List (String × α))
    (F : String × α → String × α) (g : α → α)
    (hF : ∀ kv, F kv = (kv.1, g kv.2)) (k : String) :
    lookup (m.map F) k = (lookup m k).map g := by
  induction m with
  | nil => simp [lookup]
  | cons p rest ih =>
    obtain ⟨a, b⟩ := p
    rw [List.map_cons, hF ⟨a, b⟩]
    simp only [lookup]
    by_cases h : a = k <;> simp [h, ih]

/-- C7: deleting a category `name` that exists removes it from the category
map (other categories untouched), deletes zero wallets (same key set, same
count), clears the category field on exactly those wallets whose category
equals `name`, and leaves every other field of every wallet — and the rest of
the ledger — unchanged. -/
theorem deleteCategory_clears_references (s : Storage) (name : String)
    (hc : (lookup s.categories name).isSome) :
    (s.DeleteCategory name).2 = none ∧
    lookup (s.DeleteCategory name).1.categories name = none ∧
    (∀ c, c ≠ name →
      lookup (s.DeleteCategory name).1.categories c = lookup s.categories c) ∧
    (s.DeleteCategory name).1.wallets.length = s.wallets.length ∧
    (∀ n w, lookup s.wallets n = some w →
      lookup (s.DeleteCategory name).1.wallets n =
        some (if w.category = name then { w with category := "" } else w)) ∧
    (∀ n, lookup s.wallets n = none →
      lookup (s.DeleteCategory name).1.wallets n = none) ∧
    (s.DeleteCategory name).1.transactions = s.transactions ∧
    (s.DeleteCategory name).1.contacts = s.contacts ∧
    (s.DeleteCategory name).1.prices = s.prices := by
  obtain ⟨cat, hcat⟩ := Option.isSome_iff_exists.mp hc
  have hres : s.DeleteCategory name =
      ({ s with
          categories := mapErase s.categories name,
          wallets := s.wallets.map (fun kv =>
            if kv.2.category = name then (kv.1, { kv.2 with category := "" })
            else kv) }, none) := by
    simp only [Storage.DeleteCategory, hcat]
  have hmap : ∀ n : String,
      lookup ((s.DeleteCategory name).1.wallets) n =
        (lookup s.wallets n).map (fun w =>
          if w.category = name then { w with category := "" } else w) := by
    intro n
    rw [hres]
    exact lookup_map_entries s.wallets _ _
      (by
        intro kv
        by_cases h : kv.2.category = name <;> simp [h]) n
  refine ⟨by rw [hres], ?_, ?_, ?_, ?_, ?_, by rw [hres], by rw [hres],
    by rw [hres]⟩
  · rw [hres]
    simp [lookup_mapErase]
  · intro c hcne
    rw [hres]
    simp [lookup_mapErase, Ne.symm hcne]
  · rw [hres]
    simp
  · intro n w hw
    rw [hmap n, hw]
    rfl
  · intro n hn
    rw [hmap n, hn]
    rfl

/-- A wallet in category `defi`. -/
def wCatA : Wallet := { name := "a", address := "addrA", category := "defi" }

/-- A wallet in category `other`. -/
def wCatB : Wallet := { name := "b", address := "addrB", category := "other" }

/-- A ledger holding the two wallets above and the category `defi`. -/
def sCat : Storage :=
  { wallets := [("a", wCatA), ("b", wCatB)],
    categories := [("defi", { name := "defi", color := "blue" })] }

/-- Witness for C7: deleting `defi` succeeds, removes it from the category
map, clears the reference on wallet `a` only (every other field intact), and
leaves wallet `b` untouched. -/
theorem deleteCategory_clears_references_witness :
    (sCat.DeleteCategory "defi").2 = none ∧
    lookup (sCat.DeleteCategory "defi").1.categories "defi" = none ∧
    (sCat.DeleteCategory "defi").1.wallets.length = sCat.wallets.length ∧
    lookup (sCat.DeleteCategory "defi").1.wallets "a" =
      some { wCatA with category := "" } ∧
    lookup (sCat.DeleteCategory "defi").1.wallets "b" = some wCatB := by
  have h := deleteCategory_clears_references sCat "defi" (by decide)
  refine ⟨h.1, h.2.1, h.2.2.2.1, ?_, ?_⟩
  · have := h.2.2.2.2.1 "a" wCatA (by decide)
    simpa using this
  · have := h.2.2.2.2.1 "b" wCatB (by decide)
    simpa [wCatB] using this

/-! ## C5 -/

/-- The reversal delta that deleting the stored transaction `tx` applies to
the balance of coin `c` in the wallet named `n`, in a ledger state `s`: the
sign-flipped insertion delta, applied only where the referenced wallet still
resolves in `s`. -/
def revDelta (s : Storage) (tx : Tx) (n c : String) : ℚ :=
  match tx.type with
  | .deposit =>
    if (s.getWallet tx.toWallet).isSome ∧ n = tx.toWallet ∧ c = tx.coin then
      -tx.amount else 0
  | .withdraw =>
    if (s.getWallet tx.fromWallet).isSome ∧ n = tx.fromWallet ∧ c = tx.coin then
      tx.amount else 0
  | .transfer =>
    (if (s.getWallet tx.fromWallet).isSome ∧ n = tx.fromWallet ∧ c = tx.coin
     then tx.amount else 0) +
    (if (s.getWallet tx.toWallet).isSome ∧ n = tx.toWallet ∧ c = tx.coin
     then -tx.amount else 0)
  | .swap =>
    (if (s.getWallet tx.swapWallet).isSome ∧ n = tx.swapWallet ∧
        c = tx.sellCoin then tx.sellAmount else 0) +
    (if (s.getWallet tx.swapWallet).isSome ∧ n = tx.swapWallet ∧
        c = tx.buyCoin then -tx.buyAmount else 0)

/-- Full characterization of `DeleteTransaction` on a present id: success,
removal of the record, preservation of wallet existence, and the `revDelta`
balance effect. -/
theorem DeleteTransaction_spec (s : Storage) (txID : String)
    (tx : Tx) (hlk : lookup s.transactions txID = some tx) :
    (s.DeleteTransaction txID).2 = none ∧
    lookup (s.DeleteTransaction txID).1.transactions txID = none ∧
    (∀ m, ((s.DeleteTransaction txID).1.getWallet m).isSome =
      (s.getWallet m).isSome) ∧
    (∀ n c, (s.DeleteTransaction txID).1.bal n c =
      s.bal n c + revDelta s tx n c) := by
  cases htype : tx.type with
  | deposit =>
    by_cases hP : (s.getWallet tx.toWallet).isSome
    · have hres : s.DeleteTransaction txID =
          ((s.updBal tx.toWallet tx.coin (-tx.amount)).removeTx txID, none) := by
        simp only [Storage.DeleteTransaction, hlk, htype, if_pos hP]
      refine ⟨by rw [hres], ?_, ?_, ?_⟩
      · rw [hres]
        simp [Storage.removeTx, Storage.updBal, lookup_mapErase]
      · intro m
        rw [hres, getWallet_removeTx, isSome_getWallet_updBal]
      · intro n c
        rw [hres]
        simp only [bal_removeTx, bal_updBal, revDelta, htype]
        split_ifs <;> simp_all
    · have hres : s.DeleteTransaction txID = (s.removeTx txID, none) := by
        simp only [Storage.DeleteTransaction, hlk, htype, if_neg hP]
      refine ⟨by rw [hres], ?_, ?_, ?_⟩
      · rw [hres]
        simp [Storage.removeTx, lookup_mapErase]
      · intro m
        rw [hres, getWallet_removeTx]
      · intro n c
        rw [hres]
        simp only [bal_removeTx, revDelta, htype]
        split_ifs <;> simp_all
  | withdraw =>
    by_cases hP : (s.getWallet tx.fromWallet).isSome
    · have hres : s.DeleteTransaction txID =
          ((s.updBal tx.fromWallet tx.coin tx.amount).removeTx txID, none) := by
        simp only [Storage.DeleteTransaction, hlk, htype, if_pos hP]
      refine ⟨by rw [hres], ?_, ?_, ?_⟩
      · rw [hres]
        simp [Storage.removeTx, Storage.updBal, lookup_mapErase]
      · intro m
        rw [hres, getWallet_removeTx, isSome_getWallet_updBal]
      · intro n c
        rw [hres]
        simp only [bal_removeTx, bal_updBal, revDelta, htype]
        split_ifs <;> simp_all
    · have hres : s.DeleteTransaction txID = (s.removeTx txID, none) := by
        simp only [Storage.DeleteTransaction, hlk, htype, if_neg hP]
      refine ⟨by rw [hres], ?_, ?_, ?_⟩
      · rw [hres]
        simp [Storage.removeTx, lookup_mapErase]
      · intro m
        rw [hres, getWallet_removeTx]
      · intro n c
        rw [hres]
        simp only [bal_removeTx, revDelta, htype]
        split_ifs <;> simp_all
  | transfer =>
    by_cases hF : (s.getWallet tx.fromWallet).isSome <;>
      by_cases hT : (s.getWallet tx.toWallet).isSome
    · have hres : s.DeleteTransaction txID =
          (((s.updBal tx.fromWallet tx.coin tx.amount).updBal tx.toWallet
            tx.coin (-tx.amount)).removeTx txID, none) := by
        simp only [Storage.DeleteTransaction, hlk, htype,
          isSome_getWallet_updBal, if_pos hF, if_pos hT]
      refine ⟨by rw [hres], ?_, ?_, ?_⟩
      · rw [hres]
        simp [Storage.removeTx, Storage.updBal, lookup_mapErase]
      · intro m
        rw [hres, getWallet_removeTx, isSome_getWallet_updBal,
          isSome_getWallet_updBal]
      · intro n c
        rw [hres]
        simp only [bal_removeTx, bal_updBal, isSome_getWallet_updBal,
          revDelta, htype]
        split_ifs <;> simp_all <;> ring
    · have hres : s.DeleteTransaction txID =
          ((s.updBal tx.fromWallet tx.coin tx.amount).removeTx txID, none) := by
        simp only [Storage.DeleteTransaction, hlk, htype,
          isSome_getWallet_updBal, if_pos hF, if_neg hT]
      refine ⟨by rw [hres], ?_, ?_, ?_⟩
      · rw [hres]
        simp [Storage.removeTx, Storage.updBal, lookup_mapErase]
      · intro m
        rw [hres, getWallet_removeTx, isSome_getWallet_updBal]
      · intro n c
        rw [hres]
        simp only [bal_removeTx, bal_updBal, revDelta, htype]
        split_ifs <;> simp_all
    · have hres : s.DeleteTransaction txID =
          ((s.updBal tx.toWallet tx.coin (-tx.amount)).removeTx txID, none) := by
        simp only [Storage.DeleteTransaction, hlk, htype,
          isSome_getWallet_updBal, if_neg hF, if_pos hT]
      refine ⟨by rw [hres], ?_, ?_, ?_⟩
      · rw [hres]
        simp [Storage.removeTx, Storage.updBal, lookup_mapErase]
      · intro m
        rw [hres, getWallet_removeTx, isSome_getWallet_updBal]
      · intro n c
        rw [hres]
        simp only [bal_removeTx, bal_updBal, revDelta, htype]
        split_ifs <;> simp_all
    · have hres : s.DeleteTransaction txID = (s.removeTx txID, none) := by
        simp only [Storage.DeleteTransaction, hlk, htype,
          isSome_getWallet_updBal, if_neg hF, if_neg hT]
      refine ⟨by rw [hres], ?_, ?_, ?_⟩
      · rw [hres]
        simp [Storage.removeTx, lookup_mapErase]
      · intro m
        rw [hres, getWallet_removeTx]
      · intro n c
        rw [hres]
        simp only [bal_removeTx, revDelta, htype]
        split_ifs <;> simp_all
  | swap =>
    by_cases hP : (s.getWallet tx.swapWallet).isSome
    · have hres : s.DeleteTransaction txID =
          (((s.updBal tx.swapWallet tx.sellCoin tx.sellAmount).updBal
            tx.swapWallet tx.buyCoin (-tx.buyAmount)).removeTx txID, none) := by
        simp only [Storage.DeleteTransaction, hlk, htype, if_pos hP]
      refine ⟨by rw [hres], ?_, ?_, ?_⟩
      · rw [hres]
        simp [Storage.removeTx, Storage.updBal, lookup_mapErase]
      · intro m
        rw [hres, getWallet_removeTx, isSome_getWallet_updBal,
          isSome_getWallet_updBal]
      · intro n c
        rw [hres]
        simp only [bal_removeTx, bal_updBal, isSome_getWallet_updBal,
          revDelta, htype]
        split_ifs <;> simp_all <;> ring
    · have hres : s.DeleteTransaction txID = (s.removeTx txID, none) := by
        simp only [Storage.DeleteTransaction, hlk, htype, if_neg hP]
      refine ⟨by rw [hres], ?_, ?_, ?_⟩
      · rw [hres]
        simp [Storage.removeTx, lookup_mapErase]
      · intro m
        rw [hres, getWallet_removeTx]
      · intro n c
        rw [hres]
        simp only [bal_removeTx, revDelta, htype]
        split_ifs <;> simp_all

/-- C5: deleting a stored transaction always succeeds and removes the record,
even when a wallet it references no longer exists; the sign-flipped deltas
taken from the stored record are applied exactly to those referenced wallets
that still exist (`revDelta`), a missing wallet being silently skipped rather
than an error; no wallet is created or removed. -/
theorem deleteTransaction_skips_missing_wallets (s : Storage) (txID : String)
    (tx : Tx) (hlk : lookup s.transactions txID = some tx) :
    (s.DeleteTransaction txID).2 = none ∧
    lookup (s.DeleteTransaction txID).1.transactions txID = none ∧
    (∀ m, ((s.DeleteTransaction txID).1.getWallet m).isSome =
      (s.getWallet m).isSome) ∧
    (∀ n c, (s.DeleteTransaction txID).1.bal n c =
      s.bal n c + revDelta s tx n c) :=
  DeleteTransaction_spec s txID tx hlk

/-- Witness for C5: deleting `t9` from `sOrphan`, whose destination wallet
`gone` does not exist, succeeds, removes the record, and changes no balance
(the reversal on the missing wallet is skipped). -/
theorem deleteTransaction_skips_missing_wallets_witness :
    (sOrphan.DeleteTransaction "t9").2 = none ∧
    lookup (sOrphan.DeleteTransaction "t9").1.transactions "t9" = none ∧
    ((sOrphan.DeleteTransaction "t9").1.getWallet "gone").isSome =
      (sOrphan.getWallet "gone").isSome ∧
    (sOrphan.DeleteTransaction "t9").1.bal "gone" "c" =
      sOrphan.bal "gone" "c" + revDelta sOrphan txOrphan "gone" "c" :=
  ⟨(deleteTransaction_skips_missing_wallets sOrphan "t9" txOrphan
      (by decide)).1,
   (deleteTransaction_skips_missing_wallets sOrphan "t9" txOrphan
      (by decide)).2.1,
   (deleteTransaction_skips_missing_wallets sOrphan "t9" txOrphan
      (by decide)).2.2.1 "gone",
   (deleteTransaction_skips_missing_wallets sOrphan "t9" txOrphan
      (by decide)).2.2.2 "gone" "c"⟩

/-! ## C1 -/

theorem revDelta_presence (s' s : Storage) (tx : Tx)
    (h : ∀ m, (s'.getWallet m).isSome = (s.getWallet m).isSome)
    (n c : String) : revDelta s' tx n c = revDelta s tx n c := by
  unfold revDelta
  cases tx.type <;> simp only [h]

/-- A deposit of 5 `btc` into the empty wallet `w` of `sW`. -/
def txDep : Tx :=
  { id := "t1", type := .deposit, toWallet := "w", coin := "btc", amount := 5,
    date := ⟨2025, 1, 5⟩ }

/-- Counterexample for C1 as stated: adding the deposit `txDep` and
immediately deleting it leaves wallet `w`'s balance list different from its
original state — the insertion created a `btc` entry and the reversal only
zeroes its amount, never removes it — so the balance-by-coin mapping is not
byte-for-byte identical (the set of entries present differs). -/
theorem addTransaction_deleteTransaction_not_identical_cex :
    (sW.AddTransaction txDep).2 = none ∧
    ((sW.AddTransaction txDep).1.DeleteTransaction "t1").2 = none ∧
    (sW.getWallet "w").map Wallet.balances = some [] ∧
    (((sW.AddTransaction txDep).1.DeleteTransaction "t1").1.getWallet
      "w").map Wallet.balances ≠ (sW.getWallet "w").map Wallet.balances := by
  decide

/-- C1 (amended): provided no wallet is named by the empty string, a
successful `addTransaction` followed immediately by `deleteTransaction` on
the same id restores every wallet's balance AMOUNT for every coin to its
value before the pair; the balance entry LISTS need not be byte-for-byte
identical, since an entry created by the insertion survives the reversal
with amount zero. -/
theorem addTransaction_deleteTransaction_restores_amounts (s : Storage)
    (tx : Tx) (hempty : s.getWallet "" = none)
    (hadd : (s.AddTransaction tx).2 = none) :
    ((s.AddTransaction tx).1.DeleteTransaction tx.id).2 = none ∧
    ∀ n c, ((s.AddTransaction tx).1.DeleteTransaction tx.id).1.bal n c =
      s.bal n c := by
  have hdup : ¬(tx.id ≠ "" ∧ tx.id ∈ s.txIndex) := by
    intro hc
    unfold Storage.AddTransaction at hadd
    rw [if_pos hc] at hadd
    exact Option.noConfusion hadd
  cases htype : tx.type with
  | deposit =>
    cases hw : s.getWallet tx.toWallet with
    | none =>
      exfalso
      unfold Storage.AddTransaction at hadd
      rw [if_neg hdup, htype] at hadd
      simp [hw] at hadd
    | some w =>
      have hres : s.AddTransaction tx =
          ((s.updBal tx.toWallet tx.coin tx.amount).commitTx tx, none) := by
        unfold Storage.AddTransaction
        simp only [htype, if_neg hdup, hw]
      rw [hres]
      have hlk1 : lookup ((s.updBal tx.toWallet tx.coin
          tx.amount).commitTx tx).transactions tx.id = some tx := by
        simp [Storage.commitTx, Storage.updBal, lookup_mapInsert]
      have hpres : ∀ m, (((s.updBal tx.toWallet tx.coin
          tx.amount).commitTx tx).getWallet m).isSome =
          (s.getWallet m).isSome := by
        intro m
        rw [getWallet_commitTx, isSome_getWallet_updBal]
      have hdel := DeleteTransaction_spec _ tx.id tx hlk1
      refine ⟨hdel.1, ?_⟩
      intro n c
      rw [hdel.2.2.2 n c, revDelta_presence _ s tx hpres n c,
        bal_commitTx, bal_updBal]
      simp only [revDelta, htype]
      have hw2 : (s.getWallet tx.toWallet).isSome = true := by
        rw [hw]
        rfl
      split_ifs <;> simp_all <;> ring
  | withdraw =>
    cases hw : s.getWallet tx.fromWallet with
    | none =>
      exfalso
      unfold Storage.AddTransaction at hadd
      rw [if_neg hdup, htype] at hadd
      simp [hw] at hadd
    | some w =>
      have hres : s.AddTransaction tx =
          ((s.updBal tx.fromWallet tx.coin (-tx.amount)).commitTx tx,
            none) := by
        unfold Storage.AddTransaction
        simp only [htype, if_neg hdup, hw]
      rw [hres]
      have hlk1 : lookup ((s.updBal tx.fromWallet tx.coin
          (-tx.amount)).commitTx tx).transactions tx.id = some tx := by
        simp [Storage.commitTx, Storage.updBal, lookup_mapInsert]
      have hpres : ∀ m, (((s.updBal tx.fromWallet tx.coin
          (-tx.amount)).commitTx tx).getWallet m).isSome =
          (s.getWallet m).isSome := by
        intro m
        rw [getWallet_commitTx, isSome_getWallet_updBal]
      have hdel := DeleteTransaction_spec _ tx.id tx hlk1
      refine ⟨hdel.1, ?_⟩
      intro n c
      rw [hdel.2.2.2 n c, revDelta_presence _ s tx hpres n c,
        bal_commitTx, bal_updBal]
      simp only [revDelta, htype]
      have hw2 : (s.getWallet tx.fromWallet).isSome = true := by
        rw [hw]
        rfl
      split_ifs <;> simp_all <;> ring
  | transfer =>
    have hbad : ¬((tx.fromWallet ≠ "" ∧ (s.getWallet tx.fromWallet).isNone) ∧
        (tx.toWallet ≠ "" ∧ (s.getWallet tx.toWallet).isNone)) := by
      intro hc
      unfold Storage.AddTransaction at hadd
      rw [if_neg hdup, htype] at hadd
      rw [if_pos hc] at hadd
      exact Option.noConfusion hadd
    by_cases hF : tx.fromWallet ≠ "" ∧ (s.getWallet tx.fromWallet).isSome <;>
      by_cases hT : tx.toWallet ≠ "" ∧ (s.getWallet tx.toWallet).isSome
    · have hres : s.AddTransaction tx =
          (((s.updBal tx.fromWallet tx.coin (-tx.amount)).updBal tx.toWallet
            tx.coin tx.amount).commitTx tx, none) := by
        unfold Storage.AddTransaction
        simp only [htype, if_neg hdup, if_neg hbad, if_pos hF, if_pos hT]
      rw [hres]
      have hlk1 : lookup (((s.updBal tx.fromWallet tx.coin
          (-tx.amount)).updBal tx.toWallet tx.coin
          tx.amount).commitTx tx).transactions tx.id = some tx := by
        simp [Storage.commitTx, Storage.updBal, lookup_mapInsert]
      have hpres : ∀ m, ((((s.updBal tx.fromWallet tx.coin
          (-tx.amount)).updBal tx.toWallet tx.coin
          tx.amount).commitTx tx).getWallet m).isSome =
          (s.getWallet m).isSome := by
        intro m
        rw [getWallet_commitTx, isSome_getWallet_updBal,
          isSome_getWallet_updBal]
      have hdel := DeleteTransaction_spec _ tx.id tx hlk1
      refine ⟨hdel.1, ?_⟩
      intro n c
      rw [hdel.2.2.2 n c, revDelta_presence _ s tx hpres n c,
        bal_commitTx, bal_updBal, bal_updBal, isSome_getWallet_updBal]
      simp only [revDelta, htype]
      obtain ⟨hF1, hF2⟩ := hF
      obtain ⟨hT1, hT2⟩ := hT
      split_ifs <;> simp_all <;> ring
    · have hTs : (s.getWallet tx.toWallet).isSome = false := by
        rcases not_and_or.mp hT with h | h
        · rw [not_ne_iff.mp h, hempty]
          rfl
        · cases hcase : (s.getWallet tx.toWallet).isSome
          · rfl
          · exact absurd hcase h
      have hres : s.AddTransaction tx =
          ((s.updBal tx.fromWallet tx.coin (-tx.amount)).commitTx tx,
            none) := by
        unfold Storage.AddTransaction
        simp only [htype, if_neg hdup, if_neg hbad, if_pos hF, if_neg hT]
      rw [hres]
      have hlk1 : lookup ((s.updBal tx.fromWallet tx.coin
          (-tx.amount)).commitTx tx).transactions tx.id = some tx := by
        simp [Storage.commitTx, Storage.updBal, lookup_mapInsert]
      have hpres : ∀ m, (((s.updBal tx.fromWallet tx.coin
          (-tx.amount)).commitTx tx).getWallet m).isSome =
          (s.getWallet m).isSome := by
        intro m
        rw [getWallet_commitTx, isSome_getWallet_updBal]
      have hdel := DeleteTransaction_spec _ tx.id tx hlk1
      refine ⟨hdel.1, ?_⟩
      intro n c
      rw [hdel.2.2.2 n c, revDelta_presence _ s tx hpres n c,
        bal_commitTx, bal_updBal]
      simp only [revDelta, htype]
      obtain ⟨hF1, hF2⟩ := hF
      split_ifs <;> simp_all <;> ring
    · have hFs : (s.getWallet tx.fromWallet).isSome = false := by
        rcases not_and_or.mp hF with h | h
        · rw [not_ne_iff.mp h, hempty]
          rfl
        · cases hcase : (s.getWallet tx.fromWallet).isSome
          · rfl
          · exact absurd hcase h
      have hres : s.AddTransaction tx =
          ((s.updBal tx.toWallet tx.coin tx.amount).commitTx tx, none) := by
        unfold Storage.AddTransaction
        simp only [htype, if_neg hdup, if_neg hbad, if_neg hF, if_pos hT]
      rw [hres]
      have hlk1 : lookup ((s.updBal tx.toWallet tx.coin
          tx.amount).commitTx tx).transactions tx.id = some tx := by
        simp [Storage.commitTx, Storage.updBal, lookup_mapInsert]
      have hpres : ∀ m, (((s.updBal tx.toWallet tx.coin
          tx.amount).commitTx tx).getWallet m).isSome =
          (s.getWallet m).isSome := by
        intro m
        rw [getWallet_commitTx, isSome_getWallet_updBal]
      have hdel := DeleteTransaction_spec _ tx.id tx hlk1
      refine ⟨hdel.1, ?_⟩
      intro n c
      rw [hdel.2.2.2 n c, revDelta_presence _ s tx hpres n c,
        bal_commitTx, bal_updBal]
      simp only [revDelta, htype]
      obtain ⟨hT1, hT2⟩ := hT
      split_ifs <;> simp_all <;> ring
    · have hFs : (s.getWallet tx.fromWallet).isSome = false := by
        rcases not_and_or.mp hF with h | h
        · rw [not_ne_iff.mp h, hempty]
          rfl
        · cases hcase : (s.getWallet tx.fromWallet).isSome
          · rfl
          · exact absurd hcase h
      have hTs : (s.getWallet tx.toWallet).isSome = false := by
        rcases not_and_or.mp hT with h | h
        · rw [not_ne_iff.mp h, hempty]
          rfl
        · cases hcase : (s.getWallet tx.toWallet).isSome
          · rfl
          · exact absurd hcase h
      have hres : s.AddTransaction tx = (s.commitTx tx, none) := by
        unfold Storage.AddTransaction
        simp only [htype, if_neg hdup, if_neg hbad, if_neg hF, if_neg hT]
      rw [hres]
      have hlk1 : lookup (s.commitTx tx).transactions tx.id = some tx := by
        simp [Storage.commitTx, lookup_mapInsert]
      have hpres : ∀ m, ((s.commitTx tx).getWallet m).isSome =
          (s.getWallet m).isSome := by
        intro m
        rw [getWallet_commitTx]
      have hdel := DeleteTransaction_spec _ tx.id tx hlk1
      refine ⟨hdel.1, ?_⟩
      intro n c
      rw [hdel.2.2.2 n c, revDelta_presence _ s tx hpres n c, bal_commitTx]
      simp only [revDelta, htype]
      split_ifs <;> simp_all
  | swap =>
    cases hw : s.getWallet tx.swapWallet with
    | none =>
      exfalso
      unfold Storage.AddTransaction at hadd
      rw [if_neg hdup, htype] at hadd
      simp [hw] at hadd
    | some w =>
      have hres : s.AddTransaction tx =
          (((s.updBal tx.swapWallet tx.sellCoin (-tx.sellAmount)).updBal
            tx.swapWallet tx.buyCoin tx.buyAmount).commitTx tx, none) := by
        unfold Storage.AddTransaction
        simp only [htype, if_neg hdup, hw]
      rw [hres]
      have hlk1 : lookup (((s.updBal tx.swapWallet tx.sellCoin
          (-tx.sellAmount)).updBal tx.swapWallet tx.buyCoin
          tx.buyAmount).commitTx tx).transactions tx.id = some tx := by
        simp [Storage.commitTx, Storage.updBal, lookup_mapInsert]
      have hpres : ∀ m, ((((s.updBal tx.swapWallet tx.sellCoin
          (-tx.sellAmount)).updBal tx.swapWallet tx.buyCoin
          tx.buyAmount).commitTx tx).getWallet m).isSome =
          (s.getWallet m).isSome := by
        intro m
        rw [getWallet_commitTx, isSome_getWallet_updBal,
          isSome_getWallet_updBal]
      have hdel := DeleteTransaction_spec _ tx.id tx hlk1
      refine ⟨hdel.1, ?_⟩
      intro n c
      rw [hdel.2.2.2 n c, revDelta_presence _ s tx hpres n c,
        bal_commitTx, bal_updBal, bal_updBal, isSome_getWallet_updBal]
      simp only [revDelta, htype]
      have hw2 : (s.getWallet tx.swapWallet).isSome = true := by
        rw [hw]
        rfl
      split_ifs <;> simp_all <;> ring

/-- Witness for C1 (amended): the deposit `txDep` into `sW`, immediately
deleted, restores the `btc` amount of wallet `w`. -/
theorem addTransaction_deleteTransaction_restores_amounts_witness :
    ((sW.AddTransaction txDep).1.DeleteTransaction "t1").2 = none ∧
    ((sW.AddTransaction txDep).1.DeleteTransaction "t1").1.bal "w" "btc" =
      sW.bal "w" "btc" :=
  ⟨(addTransaction_deleteTransaction_restores_amounts sW txDep (by decide)
      (by decide)).1,
   (addTransaction_deleteTransaction_restores_amounts sW txDep (by decide)
      (by decide)).2 "w" "btc"⟩

/-! ## The transaction aggregator (`cmd/wago/dashboard.go`) -/

/-- The key `fmt.Sprintf("%d-%02d", tx.Date.Year(), tx.Date.Month())`: the year in
decimal, a hyphen, and the month zero-padded to two digits. -/
def monthKey (d : Date) : String :=
  toString d.year ++ "-" ++
    (if d.month < 10 then "0" ++ toString d.month else toString d.month)

/-- One step of the grouping loop: `result[key] = append(result[key], tx)`. -/
def addToGroup : List (String × List Tx) → String → Tx → List (String × List Tx)
  | [], key, tx => [(key, [tx])]
  | (k, l) :: rest, key, tx =>
    if k = key then (k, l ++ [tx]) :: rest
    else (k, l) :: addToGroup rest key tx

/-- Translation of `groupTransactionsByMonth`: fold the transactions in order, appending
each to the bucket of its month key. -/
def groupTransactionsByMonth (txs : List Tx) : List (String × List Tx) :=
  txs.foldl (fun acc tx => addToGroup acc (monthKey tx.date) tx) []

/-- Translation of `getSortedMonthKeys`: the keys of the grouping,
`sort.Sort(sort.Reverse(sort.StringSlice(keys)))` — lexicographically
descending (Go compares strings byte-wise; on the ASCII month keys this is
the character-wise order used here). -/
def getSortedMonthKeys (g : List (String × List Tx)) : List String :=
  (g.map Prod.fst).insertionSort (fun a b => b.data ≤ a.data)

theorem lookup_addToGroup (g : List (String × List Tx)) (key : String)
    (tx : Tx) (k : String) :
    lookup (addToGroup g key tx) k =
      if key = k then some (((lookup g k).getD []) ++ [tx])
      else lookup g k := by
  induction g with
  | nil => by_cases h : key = k <;> simp [addToGroup, lookup, h]
  | cons p rest ih =>
    obtain ⟨a, l⟩ := p
    simp only [addToGroup]
    by_cases h1 : a = key
    · subst h1
      simp only [if_pos rfl, lookup]
      by_cases h2 : a = k <;> simp [h2]
    · rw [if_neg h1]
      simp only [lookup]
      by_cases h2 : a = k
      · have h3 : ¬ key = k := fun hh => h1 (h2.trans hh.symm)
        rw [if_pos h2, if_neg h3, if_pos h2]
      · rw [if_neg h2, ih]
        by_cases h3 : key = k <;> simp [h3, h2]

/-- Complete characterization of the grouping: the bucket found under a key
is exactly the sublist of transactions whose date's month key is that key
(in input order), and a key is present exactly when that sublist is
nonempty. -/
theorem lookup_groupTransactionsByMonth (txs : List Tx) (key : String) :
    lookup (groupTransactionsByMonth txs) key =
      if (txs.filter (fun t => monthKey t.date == key)).isEmpty then none
      else some (txs.filter (fun t => monthKey t.date == key)) := by
  induction txs using List.reverseRecOn with
  | nil => simp [groupTransactionsByMonth, lookup]
  | append_singleton txs tx ih =>
    have hfold : groupTransactionsByMonth (txs ++ [tx]) =
        addToGroup (groupTransactionsByMonth txs) (monthKey tx.date) tx := by
      simp [groupTransactionsByMonth, List.foldl_append]
    rw [hfold, lookup_addToGroup, ih]
    by_cases h : monthKey tx.date = key
    · rw [if_pos h, List.filter_append]
      have hone : List.filter (fun t => monthKey t.date == key) [tx] = [tx] := by
        simp [h]
      rw [hone]
      by_cases he : (txs.filter (fun t => monthKey t.date == key)).isEmpty
      · rw [if_pos he, List.isEmpty_iff.mp he]
        simp
      · rw [if_neg he]
        have hne :
            ¬ ((txs.filter (fun t => monthKey t.date == key)) ++ [tx]).isEmpty := by
          simp
        rw [if_neg hne]
        simp
    · rw [if_neg h]
      simp [List.filter_append, h]

/-- The three transactions of the spec's month-grouping example. -/
def txJan5 : Tx := { id := "m1", type := .deposit, date := ⟨2025, 1, 5⟩ }

/-- Second January transaction of the example. -/
def txJan31 : Tx := { id := "m2", type := .deposit, date := ⟨2025, 1, 31⟩ }

/-- The February transaction of the example. -/
def txFeb1 : Tx := { id := "m3", type := .deposit, date := ⟨2025, 2, 1⟩ }

/-- C8: `groupTransactionsByMonth` keys every transaction by
`"YYYY-MM"` (year, hyphen, zero-padded two-digit month) and collects each
key's transactions; `getSortedMonthKeys` presents the keys sorted descending
(a permutation of the grouping's keys, pairwise `≥`).  On the spec's example
— transactions dated 2025-01-05, 2025-01-31, 2025-02-01 — the key `2025-02`
holds 1 transaction, `2025-01` holds 2, and the presentation order is
`["2025-02", "2025-01"]`. -/
theorem groupByMonth_spec :
    (∀ txs : List Tx, ∀ key : String,
      lookup (groupTransactionsByMonth txs) key =
        if (txs.filter (fun t => monthKey t.date == key)).isEmpty then none
        else some (txs.filter (fun t => monthKey t.date == key))) ∧
    (∀ g : List (String × List Tx),
      (getSortedMonthKeys g).Sorted (fun a b => b.data ≤ a.data) ∧
      (getSortedMonthKeys g).Perm (g.map Prod.fst)) ∧
    monthKey ⟨2025, 1, 5⟩ = "2025-01" ∧ monthKey ⟨2025, 2, 1⟩ = "2025-02" ∧
    lookup (groupTransactionsByMonth [txJan5, txJan31, txFeb1]) "2025-01" =
      some [txJan5, txJan31] ∧
    lookup (groupTransactionsByMonth [txJan5, txJan31, txFeb1]) "2025-02" =
      some [txFeb1] ∧
    getSortedMonthKeys (groupTransactionsByMonth [txJan5, txJan31, txFeb1]) =
      ["2025-02", "2025-01"] := by
  refine ⟨lookup_groupTransactionsByMonth, ?_, by decide, by decide,
    by decide, by decide, by decide⟩
  intro g
  exact ⟨@List.sorted_insertionSort _ _ _
      ⟨fun a b => le_total b.data a.data⟩
      ⟨fun _ _ _ hab hbc => le_trans hbc hab⟩ (g.map Prod.fst),
    List.perm_insertionSort _ (g.map Prod.fst)⟩

/-! ## The flow-graph builder (`createFlowCanvas` in `cmd/wago/dashboard.go`) -/

/-- Model of `FlowEdge` (the Go struct; Go's `From`/`To` become
`fromNode`/`toNode` because `from` is reserved in Lean). -/
structure FlowEdge where
  fromNode : String := ""
  toNode : String := ""
  coin : String := ""
  amount : ℚ := 0
  count : Nat := 0
  dates : List Date := []
  txType : TxType := .deposit
  sellCoin : String := ""
  sellAmount : ℚ := 0
  buyCoin : String := ""
  buyAmount : ℚ := 0
deriving Repr, DecidableEq

/-- Translation of `edgeKey`: `fmt.Sprintf("%s|%s|%s|%s", from, to, coin, txType)`. -/
def edgeKey (f t coin : String) (ty : TxType) : String :=
  f ++ "|" ++ t ++ "|" ++ coin ++ "|" ++ ty.str

/-- The address-snippet rule of the transfer branch: an address longer than
10 characters is shown as its first 6 characters, an ellipsis, and its last 4
(Go slices bytes; on ASCII addresses this is the character slicing used
here). -/
def truncAddr (a : String) : String :=
  if a.data.length > 10 then
    ⟨a.data.take 6⟩ ++ "..." ++ ⟨a.data.drop (a.data.length - 4)⟩
  else a

/-- The `from` endpoint label of a transfer: the wallet name, or the
truncated address when the wallet name is empty and an address exists. -/
def transferFromLabel (tx : Tx) : String :=
  if tx.fromWallet = "" ∧ tx.fromAddress ≠ "" then truncAddr tx.fromAddress
  else tx.fromWallet

/-- The `to` endpoint label of a transfer. -/
def transferToLabel (tx : Tx) : String :=
  if tx.toWallet = "" ∧ tx.toAddress ≠ "" then truncAddr tx.toAddress
  else tx.toWallet

/-- The directed-edge endpoints a transaction contributes to the flow canvas:
deposits come from the literal `External` marker, withdrawals go to it,
transfers use the endpoint labels; swaps are kept out of the directed graph
(they are collected in a separate `swaps` list, not modelled here). -/
def txEdgeEndpoints (tx : Tx) : Option (String × String) :=
  match tx.type with
  | .deposit => some ("External", tx.toWallet)
  | .withdraw => some (tx.fromWallet, "External")
  | .transfer => some (transferFromLabel tx, transferToLabel tx)
  | .swap => none

/-- The string key under which a transaction is aggregated, when it joins the
directed graph. -/
def txEdgeKey (tx : Tx) : Option String :=
  (txEdgeEndpoints tx).map (fun p => edgeKey p.1 p.2 tx.coin tx.type)

/-- One iteration of the aggregation loop: merge the transaction into the
edge stored under its key (`Amount += tx.Amount`, `Count++`, date appended)
or create that edge with `Count = 1`. -/
def addFlowTx (edges : List (String × FlowEdge)) (tx : Tx) :
    List (String × FlowEdge) :=
  match txEdgeEndpoints tx with
  | none => edges
  | some (f, t) =>
    let key := edgeKey f t tx.coin tx.type
    match lookup edges key with
    | some _ => mapModify edges key (fun e =>
        { e with amount := e.amount + tx.amount, count := e.count + 1,
                 dates := e.dates ++ [tx.date] })
    | none => edges ++ [(key,
        { fromNode := f, toNode := t, coin := tx.coin, amount := tx.amount,
          count := 1, dates := [tx.date], txType := tx.type })]

/-- The edge-aggregation part of `createFlowCanvas` (a Go map iteration; this
list keeps first-contribution order, which no claim depends on). -/
def buildFlowEdges (txs : List Tx) : List (String × FlowEdge) :=
  txs.foldl addFlowTx []

/-- Zero-pad a number to two digits (`%02d`, and the day part of the Go
layout `Jan 02`). -/
def pad2 (n : Nat) : String :=
  if n < 10 then "0" ++ toString n else toString n

/-- Month names of the Go time layout `Jan`. -/
def monthName : Nat → String
  | 1 => "Jan" | 2 => "Feb" | 3 => "Mar" | 4 => "Apr" | 5 => "May"
  | 6 => "Jun" | 7 => "Jul" | 8 => "Aug" | 9 => "Sep" | 10 => "Oct"
  | 11 => "Nov" | 12 => "Dec"
  | n => toString n

/-- The Go format call `date.Format("Jan 02")`. -/
def fmtDate (d : Date) : String :=
  monthName d.month ++ " " ++ pad2 d.day

/-- The sort `sort.Slice(dates, ...Before...)`: the dates in chronological order. -/
def sortDates (ds : List Date) : List Date :=
  ds.insertionSort (fun a b => Date.before b a = false)

/-- Translation of `formatDates`: a single date prints as itself; several dates print as
`first - last` of the chronologically sorted list.  (On an empty list the Go
code would panic indexing `dates[0]`; every edge carries at least one date,
so the `""` default is unreachable.) -/
def formatDates (dates : List Date) : String :=
  match dates with
  | [d] => fmtDate d
  | ds =>
    let s := sortDates ds
    match s.head?, s.getLast? with
    | some d₁, some d₂ => fmtDate d₁ ++ " - " ++ fmtDate d₂
    | _, _ => ""

theorem lookup_append_single {α : Type} (m : List (String × α)) (k0 : String)
    (v : α) (k : String) :
    lookup (m ++ [(k0, v)]) k =
      match lookup m k with
      | some x => some x
      | none => if k0 = k then some v else none := by
  induction m with
  | nil => simp [lookup]
  | cons p rest ih =>
    obtain ⟨a, b⟩ := p
    by_cases h : a = k <;> simp [lookup, h, ih]

/-- The observable content of an edge: amount, count and date list. -/
def edgeData (e : FlowEdge) : ℚ × Nat × List Date :=
  (e.amount, e.count, e.dates)

theorem lookup_addFlowTx (edges : List (String × FlowEdge)) (tx : Tx)
    (k : String) :
    (lookup (addFlowTx edges tx) k).map edgeData =
      if txEdgeKey tx = some k then
        match (lookup edges k).map edgeData with
        | some (a, n, ds) => some (a + tx.amount, n + 1, ds ++ [tx.date])
        | none => some (tx.amount, 1, [tx.date])
      else (lookup edges k).map edgeData := by
  unfold addFlowTx txEdgeKey
  cases hend : txEdgeEndpoints tx with
  | none => simp
  | some p =>
    obtain ⟨f, t⟩ := p
    have hcond : (Option.map (fun p => edgeKey p.1 p.2 tx.coin tx.type)
        (some (f, t)) = some k) ↔ (edgeKey f t tx.coin tx.type = k) := by
      simp
    by_cases hk : edgeKey f t tx.coin tx.type = k
    · rw [if_pos (hcond.mpr hk)]
      cases hl : lookup edges k with
      | some e =>
        have hl0 : lookup edges (edgeKey f t tx.coin tx.type) = some e := by
          rw [hk, hl]
        simp [hl0, lookup_mapModify, hk, hl, edgeData]
      | none =>
        have hl0 : lookup edges (edgeKey f t tx.coin tx.type) = none := by
          rw [hk, hl]
        simp [hl0, lookup_append_single, hk, hl, edgeData]
    · rw [if_neg (fun hh => hk (hcond.mp hh))]
      cases hl : lookup edges (edgeKey f t tx.coin tx.type) with
      | some e => simp [hl, lookup_mapModify, hk]
      | none =>
        simp only [hl, lookup_append_single]
        cases h2 : lookup edges k <;> simp [h2, hk]

/-- Complete characterization of the aggregation: under every string key the
canvas holds an edge exactly when some transaction maps to that key, and that
edge's amount is the sum of the contributing amounts, its count their number,
and its date list their dates in input order. -/
theorem lookup_buildFlowEdges (txs : List Tx) (key : String) :
    (lookup (buildFlowEdges txs) key).map edgeData =
      if (txs.filter (fun t => txEdgeKey t == some key)).isEmpty then none
      else some
        (((txs.filter (fun t => txEdgeKey t == some key)).map Tx.amount).sum,
         (txs.filter (fun t => txEdgeKey t == some key)).length,
         (txs.filter (fun t => txEdgeKey t == some key)).map Tx.date) := by
  induction txs using List.reverseRecOn with
  | nil => simp [buildFlowEdges, lookup]
  | append_singleton txs tx ih =>
    have hfold : buildFlowEdges (txs ++ [tx]) =
        addFlowTx (buildFlowEdges txs) tx := by
      simp [buildFlowEdges, List.foldl_append]
    rw [hfold, lookup_addFlowTx, ih]
    by_cases h : txEdgeKey tx = some key
    · rw [if_pos h, List.filter_append]
      have hone : List.filter (fun t => txEdgeKey t == some key) [tx] =
          [tx] := by
        simp [h]
      rw [hone]
      by_cases he : (txs.filter (fun t => txEdgeKey t == some key)).isEmpty
      · rw [if_pos he, List.isEmpty_iff.mp he]
        simp
      · rw [if_neg he]
        have hne : ¬ ((txs.filter (fun t => txEdgeKey t == some key)) ++
            [tx]).isEmpty := by
          simp
        rw [if_neg hne]
        rcases List.isEmpty_eq_false_iff_exists_mem.mp
          (Bool.eq_false_iff.mpr he) with ⟨x, hx⟩
        simp
    · rw [if_neg h, List.filter_append]
      have hzero : List.filter (fun t => txEdgeKey t == some key) [tx] =
          [] := by
        simp [h]
      rw [hzero, List.append_nil]

theorem dateGe_total (a b : Date) :
    Date.before b a = false ∨ Date.before a b = false := by
  cases h1 : Date.before b a
  · left
    rfl
  · cases h2 : Date.before a b
    · right
      rfl
    · exfalso
      unfold Date.before at h1 h2
      simp at h1 h2
      omega

theorem dateLe_trans (a b c : Date) (h1 : Date.before b a = false)
    (h2 : Date.before c b = false) : Date.before c a = false := by
  cases h3 : Date.before c a
  · rfl
  · exfalso
    unfold Date.before at h1 h2 h3
    simp at h1 h2 h3
    omega

theorem sortDates_sorted_perm (ds : List Date) :
    (sortDates ds).Sorted (fun a b => Date.before b a = false) ∧
    (sortDates ds).Perm ds :=
  ⟨@List.sorted_insertionSort _ _ _ ⟨fun a b => dateGe_total a b⟩
      ⟨fun a b c hab hbc => dateLe_trans a b c hab hbc⟩ ds,
   List.perm_insertionSort _ ds⟩

theorem formatDates_pair (ds : List Date) (d₁ d₂ : Date) (rest : List Date)
    (hlen : 2 ≤ ds.length) (hsort : sortDates ds = d₁ :: rest)
    (hlast : (d₁ :: rest).getLast? = some d₂) :
    formatDates ds = fmtDate d₁ ++ " - " ++ fmtDate d₂ := by
  cases ds with
  | nil => simp at hlen
  | cons x xs =>
    cases xs with
    | nil => simp at hlen
    | cons y ys =>
      simp only [formatDates, hsort, List.head?]
      rw [hlast]

/-! ## C9 -/

/-- First deposit of the spec's flow-edge example: 10 `SOL` into `W`. -/
def txSol1 : Tx :=
  { id := "s1", type := .deposit, toWallet := "W", coin := "SOL",
    amount := 10, date := ⟨2025, 1, 5⟩ }

/-- Second deposit of the example: 15 `SOL` into `W`, on a later date. -/
def txSol2 : Tx :=
  { id := "s2", type := .deposit, toWallet := "W", coin := "SOL",
    amount := 15, date := ⟨2025, 2, 1⟩ }

/-- The aggregation key of the two example deposits. -/
def solKey : String := "External|W|SOL|deposit"

/-- A deposit whose coin contains the key separator `|`. -/
def txAmb1 : Tx :=
  { id := "a1", type := .deposit, toWallet := "w", coin := "c|deposit",
    amount := 1, date := ⟨2025, 1, 1⟩ }

/-- A deposit with a different destination and coin that nevertheless joins
to the same string key as `txAmb1`. -/
def txAmb2 : Tx :=
  { id := "a2", type := .deposit, toWallet := "w|c", coin := "deposit",
    amount := 2, date := ⟨2025, 1, 2⟩ }

/-- Counterexample for C9 as stated: the edge key is the `|`-joined string
`from|to|coin|type`, so these two deposits — whose `(from, to, coin, type)`
TUPLES differ — collide on one key and are merged into a single edge of
count 2; the set of transactions sharing the tuple
`(External, w, c|deposit, deposit)` has exactly one member, yet no edge of
the canvas has `count = 1` or that tuple's amount. -/
theorem flowEdges_merge_cex :
    txAmb1.toWallet ≠ txAmb2.toWallet ∧ txAmb1.coin ≠ txAmb2.coin ∧
    txEdgeKey txAmb1 = txEdgeKey txAmb2 ∧
    (buildFlowEdges [txAmb1, txAmb2]).length = 1 ∧
    (∀ p ∈ buildFlowEdges [txAmb1, txAmb2], p.2.count = 2) ∧
    ([txAmb1, txAmb2].filter (fun t => t.type == TxType.deposit &&
      t.toWallet == "w" && t.coin == "c|deposit")).length = 1 := by
  decide

/-- C9 (amended): the flow-graph builder merges deposit/withdraw/transfer
transactions by the joined STRING key `from|to|coin|type` (distinct tuples
whose join coincides are merged together): under every key the edge's amount
is the sum of the contributing amounts, its count the number of contributing
transactions, and its dates their dates; the date label of a single-date
edge is that date, and with several dates it is `earliest - latest` after
sorting chronologically.  In particular the spec's example — deposits of 10
and 15 `SOL` into `W` on 2025-01-05 and 2025-02-01 — yields one edge with
amount 25, count 2, and the label `Jan 05 - Feb 01`. -/
theorem flowEdges_merge_spec :
    (∀ txs : List Tx, ∀ key : String,
      (lookup (buildFlowEdges txs) key).map edgeData =
        if (txs.filter (fun t => txEdgeKey t == some key)).isEmpty then none
        else some
          (((txs.filter (fun t => txEdgeKey t == some key)).map
              Tx.amount).sum,
           (txs.filter (fun t => txEdgeKey t == some key)).length,
           (txs.filter (fun t => txEdgeKey t == some key)).map Tx.date)) ∧
    (∀ d : Date, formatDates [d] = fmtDate d) ∧
    (∀ ds : List Date,
      (sortDates ds).Sorted (fun a b => Date.before b a = false) ∧
      (sortDates ds).Perm ds) ∧
    (∀ (ds : List Date) (d₁ d₂ : Date) (rest : List Date),
      2 ≤ ds.length → sortDates ds = d₁ :: rest →
      (d₁ :: rest).getLast? = some d₂ →
      formatDates ds = fmtDate d₁ ++ " - " ++ fmtDate d₂) ∧
    (buildFlowEdges [txSol1, txSol2]).length = 1 ∧
    (lookup (buildFlowEdges [txSol1, txSol2]) solKey).map FlowEdge.count =
      some 2 ∧
    (lookup (buildFlowEdges [txSol1, txSol2]) solKey).map FlowEdge.amount =
      some 25 ∧
    (lookup (buildFlowEdges [txSol1, txSol2]) solKey).map
      (fun e => formatDates e.dates) = some "Jan 05 - Feb 01" := by
  refine ⟨lookup_buildFlowEdges, by intro d; rfl, sortDates_sorted_perm,
    formatDates_pair, by decide, by decide, ?_, by decide⟩
  simp [buildFlowEdges, addFlowTx, txEdgeEndpoints, txEdgeKey, edgeKey,
    TxType.str, txSol1, txSol2, lookup, mapModify, solKey]
  norm_num

/-- Witness for C9 (amended): the date-label rule applied to the example's
two dates (hypotheses of `formatDates_pair` discharged concretely through
the claim theorem). -/
theorem flowEdges_merge_spec_witness :
    formatDates [⟨2025, 2, 1⟩, ⟨2025, 1, 5⟩] =
      fmtDate ⟨2025, 1, 5⟩ ++ " - " ++ fmtDate ⟨2025, 2, 1⟩ :=
  flowEdges_merge_spec.2.2.2.1 [⟨2025, 2, 1⟩, ⟨2025, 1, 5⟩]
    ⟨2025, 1, 5⟩ ⟨2025, 2, 1⟩ [⟨2025, 2, 1⟩] (by decide) (by decide)
    (by decide)

end Wago
